import Mathlib

/-!
Shallow embedding of `src/lambda_aws_finops.py`, an AWS cost-reporting
pipeline: fetch monthly per-service costs, analyze month-over-month deltas
for the top-10 services, render an ASCII chart, assemble Slack blocks and
POST them, with a top-level handler mapping outcomes to status/body pairs.

Modelling conventions:
  * Python `float` amounts are modelled as `ℚ`; the special value
    `float("inf")` produced for percent change is an explicit constructor
    of `PercentChange`.
  * Python `dict`s are association lists with Python's assignment
    semantics: updating an existing key keeps its position, a new key is
    appended (`dictInsert`).  Iteration order is list order, matching
    Python's insertion-order iteration.
  * Fallible code (IndexError on fewer than two months, ValueError /
    ZeroDivisionError in the chart) is modelled with `Except String`,
    carrying the Python exception message.
  * External effects (the Cost Explorer call, the environment variable,
    the webhook HTTP exchange) are an explicit `Env` record; which
    components run is reported in a `Trace`.
-/

set_option synthInstance.maxSize 512

namespace FinOps

instance {ε α : Type} [DecidableEq ε] [DecidableEq α] : DecidableEq (Except ε α) :=
  fun x y =>
    match x, y with
    | .ok a, .ok b => decidable_of_iff (a = b) (by simp)
    | .error a, .error b => decidable_of_iff (a = b) (by simp)
    | .ok _, .error _ => isFalse (by simp)
    | .error _, .ok _ => isFalse (by simp)

/-! ### Python-dict association lists -/

/-- Python `d[k] = v`: replace in place if the key is present, else append. -/
def dictInsert {α : Type} (d : List (String × α)) (k : String) (v : α) :
    List (String × α) :=
  match d with
  | [] => [(k, v)]
  | (k', v') :: rest =>
      if k' = k then (k, v) :: rest else (k', v') :: dictInsert rest k v

/-- Python `d.get(k)` / `d[k]`: first (only) binding of `k`. -/
def dictGet {α : Type} (d : List (String × α)) (k : String) : Option α :=
  match d with
  | [] => none
  | (k', v) :: rest => if k' = k then some v else dictGet rest k

/-- Python `d.keys()`, in insertion order. -/
def dictKeys {α : Type} (d : List (String × α)) : List String :=
  d.map Prod.fst

/-! ### Raw Cost Explorer data and the analyzer (`analyze_costs`) -/

/-- One element of `response["ResultsByTime"]`: the period start date
(`"YYYY-MM-DD"`) and the `Groups` list of (service, amount) pairs. -/
structure RawMonth where
  start : String
  groups : List (String × ℚ)
deriving DecidableEq

/-- Model of `datetime.strptime(start, "%Y-%m-%d").strftime("%Y-%m")`: on a
valid date string this is its first seven characters. -/
def monthKey (s : String) : String := s.take 7

/-- The dict comprehension building one month's service → amount map. -/
def buildServiceMap (groups : List (String × ℚ)) : List (String × ℚ) :=
  groups.foldl (fun d g => dictInsert d g.1 g.2) []

/-- The `monthly_costs` dict built by the loop over `cost_data`. -/
def buildMonthlyCosts (costData : List RawMonth) :
    List (String × List (String × ℚ)) :=
  costData.foldl
    (fun mc md => dictInsert mc (monthKey md.start) (buildServiceMap md.groups)) []

/-- Value of `percent_change`: a finite value, or `float("inf")` when the
previous cost is not positive. -/
inductive PercentChange where
  | finite (q : ℚ)
  | posInf
deriving DecidableEq

/-- One value of the `top_10_comparison` dict. -/
structure CompEntry where
  current : ℚ
  previous : ℚ
  change : ℚ
  percent_change : PercentChange
deriving DecidableEq

/-- Body of the comparison loop for one `(service, current_cost)` pair. -/
def mkEntry (prevMap : List (String × ℚ)) (p : String × ℚ) : CompEntry :=
  let previous := (dictGet prevMap p.1).getD 0
  let change := p.2 - previous
  { current := p.2
    previous := previous
    change := change
    percent_change :=
      if 0 < previous then PercentChange.finite (change / previous * 100)
      else PercentChange.posInf }

/-- Lexicographic (code-point) order on character lists: exactly Python's
string comparison, used by `sorted(monthly_costs.keys())`. -/
def charListLe : List Char → List Char → Prop
  | [], _ => True
  | _ :: _, [] => False
  | a :: as, b :: bs => a < b ∨ (a = b ∧ charListLe as bs)

instance charListLe.dec : (l₁ l₂ : List Char) → Decidable (charListLe l₁ l₂)
  | [], _ => .isTrue trivial
  | _ :: _, [] => .isFalse (fun h => h)
  | a :: as, b :: bs =>
    have := charListLe.dec as bs
    inferInstanceAs (Decidable (a < b ∨ (a = b ∧ charListLe as bs)))

theorem charListLe_trans :
    ∀ {l₁ l₂ l₃ : List Char}, charListLe l₁ l₂ → charListLe l₂ l₃ → charListLe l₁ l₃
  | [], _, _, _, _ => trivial
  | _ :: _, [], _, h, _ => h.elim
  | _ :: _, _ :: _, [], _, h2 => h2.elim
  | a :: as, b :: bs, c :: cs, h1, h2 => by
    rcases h1 with h1 | ⟨rfl, h1⟩
    · rcases h2 with h2 | ⟨rfl, h2⟩
      · exact Or.inl (lt_trans h1 h2)
      · exact Or.inl h1
    · rcases h2 with h2 | ⟨rfl, h2⟩
      · exact Or.inl h2
      · exact Or.inr ⟨rfl, charListLe_trans h1 h2⟩

theorem charListLe_total : ∀ (l₁ l₂ : List Char), charListLe l₁ l₂ ∨ charListLe l₂ l₁
  | [], _ => Or.inl trivial
  | _ :: _, [] => Or.inr trivial
  | a :: as, b :: bs => by
    rcases lt_trichotomy a b with h | rfl | h
    · exact Or.inl (Or.inl h)
    · rcases charListLe_total as bs with h | h
      · exact Or.inl (Or.inr ⟨rfl, h⟩)
      · exact Or.inr (Or.inr ⟨rfl, h⟩)
    · exact Or.inr (Or.inl h)

/-- Python `a <= b` on strings. -/
def strLe (a b : String) : Prop := charListLe a.data b.data

instance : DecidableRel strLe := fun a b =>
  inferInstanceAs (Decidable (charListLe a.data b.data))

instance : IsTrans String strLe := ⟨fun _ _ _ h1 h2 => charListLe_trans h1 h2⟩

instance : IsTotal String strLe := ⟨fun a b => charListLe_total a.data b.data⟩

instance : IsRefl String strLe :=
  ⟨fun a => (charListLe_total a.data a.data).elim id id⟩

/-- Order used by `sorted(items, key=lambda x: x[1], reverse=True)`:
descending by amount (stable, as in Python). -/
def byAmountDesc (a b : String × ℚ) : Prop := b.2 ≤ a.2

instance : DecidableRel byAmountDesc := fun a b =>
  inferInstanceAs (Decidable (b.2 ≤ a.2))

instance : IsTotal (String × ℚ) byAmountDesc :=
  ⟨fun a b => by unfold byAmountDesc; exact le_total b.2 a.2⟩

instance : IsTrans (String × ℚ) byAmountDesc :=
  ⟨fun _ _ _ h1 h2 => le_trans h2 h1⟩

/-- Lines 44–79 of `analyze_costs`: build `monthly_costs`, pick
`months[-1]` and `months[-2]` from the sorted key list, rank the current
month's services by cost descending, keep the first ten, and build the
comparison dict against the previous month.  `.error` carries the Python
exception that the corresponding partial operation would raise. -/
def processCostData (costData : List RawMonth) :
    Except String
      (List (String × CompEntry) × List (String × List (String × ℚ)) ×
        String × String) :=
  let monthlyCosts := buildMonthlyCosts costData
  let months := List.insertionSort strLe (dictKeys monthlyCosts)
  match months.reverse with
  | currentMonth :: previousMonth :: _ =>
    match dictGet monthlyCosts currentMonth, dictGet monthlyCosts previousMonth with
    | some currentMap, some previousMap =>
      let currentTop10 := (List.insertionSort byAmountDesc currentMap).take 10
      let top10Comparison :=
        currentTop10.foldl (fun d p => dictInsert d p.1 (mkEntry previousMap p)) []
      .ok (top10Comparison, monthlyCosts, currentMonth, previousMonth)
    | _, _ => .error "KeyError"
  | _ => .error "list index out of range"

/-! ### Python number formatting (`f"{x:.2f}"`) -/

/-- Banker's rounding to an integer, as Python's float formatting uses. -/
def roundHalfEven (q : ℚ) : ℤ :=
  let f := ⌊q⌋
  let r := q - (f : ℚ)
  if r < 1 / 2 then f
  else if 1 / 2 < r then f + 1
  else if f % 2 = 0 then f else f + 1

/-- Two-digit zero-padded decimal string for `n < 100`. -/
def natDigits2 (n : ℕ) : String :=
  if n < 10 then "0" ++ toString n else toString n

/-- Model of Python `f"{q:.2f}"`: round to two decimal places and print
with exactly two fractional digits. -/
def fmt2 (q : ℚ) : String :=
  let sign := if q < 0 then "-" else ""
  let n := (roundHalfEven (|q| * 100)).toNat
  sign ++ toString (n / 100) ++ "." ++ natDigits2 (n % 100)

/-- Model of Python `f"{pc:.2f}"` where `pc` may be `float("inf")`. -/
def fmtPC : PercentChange → String
  | .finite q => fmt2 q
  | .posInf => "inf"

/-! ### The chart renderer (`create_ascii_chart`) -/

/-- Python `sum(d.values())`. -/
def sumValues (m : List (String × ℚ)) : ℚ :=
  m.foldl (fun a p => a + p.2) 0

/-- `months = sorted(monthly_costs.keys())`. -/
def sortedMonths (mc : List (String × List (String × ℚ))) : List String :=
  List.insertionSort strLe (dictKeys mc)

/-- `total_costs = [sum(monthly_costs[month].values()) for month in months]`.
Every `month` is a key of `mc`, so the `getD []` default is never taken. -/
def monthTotals (mc : List (String × List (String × ℚ))) : List ℚ :=
  (sortedMonths mc).map (fun m => sumValues ((dictGet mc m).getD []))

/-- `max_cost = max(total_costs)` (Python `max` of a nonempty list). -/
def maxTotal (mc : List (String × List (String × ℚ))) : ℚ :=
  match monthTotals mc with
  | [] => 0
  | t :: ts => ts.foldl max t

/-- Python `int(q)`: truncation toward zero. -/
def ratTrunc (q : ℚ) : ℤ :=
  if q < 0 then -⌊-q⌋ else ⌊q⌋

/-- `bar_length = int((cost / max_cost) * chart_width)` with
`chart_width = 20`. -/
def bar_length (cost maxCost : ℚ) : ℤ :=
  ratTrunc (cost / maxCost * 20)

/-- `bar = "█" * bar_length` (Python repetition yields `""` for a
non-positive count). -/
def barOf (cost maxCost : ℚ) : String :=
  String.mk (List.replicate (bar_length cost maxCost).toNat '█')

/-- Python `s.ljust(w)`: pad on the right with spaces to width `w`. -/
def ljust (s : String) (w : ℕ) : String :=
  s ++ String.mk (List.replicate (w - s.length) ' ')

/-- Model of `create_ascii_chart`.  The two `.error` cases are the
`ValueError` of `max([])` and the `ZeroDivisionError` of the first
`cost / max_cost` in the loop (raised whenever the loop is nonempty and
`max_cost` is zero). -/
def create_ascii_chart (mc : List (String × List (String × ℚ))) :
    Except String String :=
  if monthTotals mc = [] then .error "max() arg is an empty sequence"
  else if maxTotal mc = 0 then .error "float division by zero"
  else
    .ok (((sortedMonths mc).zip (monthTotals mc)).foldl
      (fun chart p =>
        chart ++ p.1 ++ ": $" ++ fmt2 p.2 ++ "\n"
          ++ ljust (barOf p.2 (maxTotal mc)) 20 ++ " | " ++ fmt2 p.2 ++ "\n\n")
      "6-Month Cost Overview\n\n")

/-! ### The report builder (`create_report`) -/

/-- One Slack display block. -/
inductive Block where
  | header (text : String)
  | sectionBlock (text : String)
  | divider
deriving DecidableEq

/-- `change_icon` selection by the sign of `change`. -/
def change_icon (c : ℚ) : String :=
  if 0 < c then "🔼" else if c < 0 then "🔽" else "➖"

/-- Text of the per-service section block. -/
def serviceSection (service : String) (d : CompEntry) : String :=
  "*" ++ service ++ "*\n"
    ++ "Current: $" ++ fmt2 d.current ++ "\n"
    ++ "Previous: $" ++ fmt2 d.previous ++ "\n"
    ++ "Change: " ++ change_icon d.change ++ " $" ++ fmt2 |d.change|
    ++ " (" ++ fmtPC d.percent_change ++ "%)"

/-- Model of `create_report`: header, intro section, one section per
comparison entry (in dict order), divider, overview header, chart section.
Propagates the chart's exception. -/
def create_report (top10Comparison : List (String × CompEntry))
    (mc : List (String × List (String × ℚ)))
    (currentMonth previousMonth : String) : Except String (List Block) :=
  match create_ascii_chart mc with
  | .error e => .error e
  | .ok chart =>
    .ok ([Block.header ("AWS Cost Analysis: " ++ currentMonth ++ " vs " ++ previousMonth),
          Block.sectionBlock "*Top 10 Most Expensive Services Comparison:*"]
      ++ top10Comparison.map (fun p => Block.sectionBlock (serviceSection p.1 p.2))
      ++ [Block.divider,
          Block.header "6-Month Cost Overview",
          Block.sectionBlock ("```\n" ++ chart ++ "\n```")])

/-! ### JSON wire format for blocks -/

/-- JSON values, as far as the webhook payload needs them. -/
inductive Json where
  | str (s : String)
  | arr (xs : List Json)
  | obj (fields : List (String × Json))

/-- Serialization of one block, following the wire format of §6. -/
def blockToJson : Block → Json
  | .header t =>
      .obj [("type", .str "header"),
            ("text", .obj [("type", .str "plain_text"), ("text", .str t)])]
  | .sectionBlock t =>
      .obj [("type", .str "section"),
            ("text", .obj [("type", .str "mrkdwn"), ("text", .str t)])]
  | .divider => .obj [("type", .str "divider")]

/-- Parsing one block back from its JSON form. -/
def blockOfJson : Json → Option Block
  | .obj [("type", .str "header"),
          ("text", .obj [("type", .str "plain_text"), ("text", .str t)])] =>
      some (.header t)
  | .obj [("type", .str "section"),
          ("text", .obj [("type", .str "mrkdwn"), ("text", .str t)])] =>
      some (.sectionBlock t)
  | .obj [("type", .str "divider")] => some .divider
  | _ => none

/-- Parsing a serialized block list; fails if any element fails. -/
def parseBlocks : List Json → Option (List Block)
  | [] => some []
  | j :: js =>
    match blockOfJson j, parseBlocks js with
    | some b, some bs => some (b :: bs)
    | _, _ => none

/-! ### External effects, `send_to_slack`, `analyze_costs`, `lambda_handler` -/

/-- One invocation's external world: the Cost Explorer answer (`none`
models a `ClientError`, which `get_cost_data` turns into `None`), the
`SLACK_WEBHOOK_URL` environment variable, and the webhook HTTP exchange
(`none` models a transport exception from `urlopen`, `some (code, body)`
a response object). -/
structure Env where
  costData : Option (List RawMonth)
  slackUrl : Option String
  slackHttp : Option (ℕ × String)
deriving DecidableEq

/-- Model of `analyze_costs`: `get_cost_data` already folded into
`Env.costData`.  Python's `if not cost_data` is true both for `None` and
for an empty list, giving the all-`None` early return. -/
def analyze_costs (cd : Option (List RawMonth)) :
    Except String
      (Option (List (String × CompEntry) × List (String × List (String × ℚ)) ×
        String × String)) :=
  match cd with
  | none => .ok none
  | some [] => .ok none
  | some l => (processCostData l).map some

/-- Model of `send_to_slack`.  Returns the value Python returns (`none`
is the `None` failure sentinel, `some body` the response body read on an
HTTP 200) paired with whether a network request was attempted.  Python's
`if not slack_webhook_url` is true for a missing and for an empty URL,
and returns before the request is even constructed. -/
def send_to_slack (env : Env) (_report : List Block) : Option String × Bool :=
  match env.slackUrl with
  | none => (none, false)
  | some url =>
    if url = "" then (none, false)
    else
      match env.slackHttp with
      | none => (none, true)
      | some (code, body) =>
        if code ≠ 200 then (none, true) else (some body, true)

/-- The handler's return value: `statusCode` and `json.dumps`-encoded body. -/
structure LambdaResult where
  statusCode : ℕ
  body : String
deriving DecidableEq

/-- Which pipeline components ran during one invocation. -/
structure Trace where
  reportBuilderInvoked : Bool
  deliveryInvoked : Bool
  networkAttempted : Bool
deriving DecidableEq

/-- JSON escaping of one character inside a string literal. -/
def jsonEscape (c : Char) : String :=
  if c = '"' then "\\\""
  else if c = '\\' then "\\\\"
  else if c = '\n' then "\\n"
  else if c = '\t' then "\\t"
  else if c = '\r' then "\\r"
  else String.singleton c

/-- Model of `json.dumps(s)` for a string `s`. -/
def json_dumps_str (s : String) : String :=
  "\"" ++ String.join (s.data.map jsonEscape) ++ "\""

/-- Model of `lambda_handler`: runs the pipeline, catching every modelled
exception at the top level, and pairs the result with the invocation
trace.  `if not top_10_comparison` is true both for the `None` early
return and for an empty comparison dict; `if slack_response` is true only
for a non-`None`, nonempty response body. -/
def lambda_handler (env : Env) : LambdaResult × Trace :=
  match analyze_costs env.costData with
  | .error msg =>
      (⟨500, json_dumps_str ("Unexpected error: " ++ msg)⟩, ⟨false, false, false⟩)
  | .ok none =>
      (⟨500, json_dumps_str "Error fetching cost data"⟩, ⟨false, false, false⟩)
  | .ok (some (top10Comparison, monthlyCosts, currentMonth, previousMonth)) =>
    if top10Comparison.isEmpty then
      (⟨500, json_dumps_str "Error fetching cost data"⟩, ⟨false, false, false⟩)
    else
      match create_report top10Comparison monthlyCosts currentMonth previousMonth with
      | .error msg =>
          (⟨500, json_dumps_str ("Unexpected error: " ++ msg)⟩, ⟨true, false, false⟩)
      | .ok report =>
        let sl := send_to_slack env report
        match sl.1 with
        | some body =>
          if body = "" then
            (⟨500, json_dumps_str "Error sending report to Slack"⟩, ⟨true, true, sl.2⟩)
          else
            (⟨200, json_dumps_str "Report sent to Slack successfully"⟩, ⟨true, true, sl.2⟩)
        | none =>
            (⟨500, json_dumps_str "Error sending report to Slack"⟩, ⟨true, true, sl.2⟩)

/-! ### Association-list lemmas -/

theorem dictKeys_dictInsert {α : Type} (d : List (String × α)) (k : String) (v : α) :
    dictKeys (dictInsert d k v)
      = if k ∈ dictKeys d then dictKeys d else dictKeys d ++ [k] := by
  induction d with
  | nil => simp [dictInsert, dictKeys]
  | cons hd tl ih =>
    obtain ⟨k', v'⟩ := hd
    by_cases hk : k' = k
    · subst hk
      simp [dictInsert, dictKeys]
    · have hstep : dictInsert ((k', v') :: tl) k v = (k', v') :: dictInsert tl k v := by
        simp [dictInsert, hk]
      rw [hstep]
      show k' :: dictKeys (dictInsert tl k v) = _
      rw [ih]
      by_cases hmem : k ∈ dictKeys tl
      · rw [if_pos hmem,
          if_pos (show k ∈ dictKeys ((k', v') :: tl) from List.mem_cons_of_mem _ hmem)]
        rfl
      · rw [if_neg hmem, if_neg ?_]
        · rfl
        · intro hc
          rcases List.mem_cons.mp hc with h | h
          · exact hk h.symm
          · exact hmem h

theorem nodup_dictKeys_dictInsert {α : Type} {d : List (String × α)} {k : String}
    {v : α} (h : (dictKeys d).Nodup) : (dictKeys (dictInsert d k v)).Nodup := by
  rw [dictKeys_dictInsert]
  split
  · exact h
  · next hk => simp [List.nodup_append, h, hk]

theorem nodup_dictKeys_foldl {α β : Type} (key : β → String) (val : β → α) :
    ∀ (l : List β) (acc : List (String × α)), (dictKeys acc).Nodup →
      (dictKeys (l.foldl (fun d b => dictInsert d (key b) (val b)) acc)).Nodup := by
  intro l
  induction l with
  | nil => intro acc h; exact h
  | cons b l ih =>
    intro acc h
    exact ih _ (nodup_dictKeys_dictInsert h)

theorem nodup_dictKeys_buildServiceMap (groups : List (String × ℚ)) :
    (dictKeys (buildServiceMap groups)).Nodup :=
  nodup_dictKeys_foldl Prod.fst Prod.snd groups [] (by simp [dictKeys])

theorem nodup_dictKeys_buildMonthlyCosts (costData : List RawMonth) :
    (dictKeys (buildMonthlyCosts costData)).Nodup := by
  unfold buildMonthlyCosts
  exact nodup_dictKeys_foldl _ _ costData [] (by simp [dictKeys])

theorem dictGet_eq_some_of_mem {α : Type} :
    ∀ {d : List (String × α)} {k : String}, k ∈ dictKeys d →
      ∃ v, dictGet d k = some v := by
  intro d
  induction d with
  | nil => intro k h; simp [dictKeys] at h
  | cons hd tl ih =>
    intro k h
    obtain ⟨k', v'⟩ := hd
    by_cases hk : k' = k
    · exact ⟨v', by simp [dictGet, hk]⟩
    · have : k ∈ dictKeys tl := by
        simp only [dictKeys, List.map_cons, List.mem_cons] at h
        rcases h with h | h
        · exact absurd h.symm hk
        · exact h
      obtain ⟨v, hv⟩ := ih this
      exact ⟨v, by simp [dictGet, hk, hv]⟩

theorem mem_of_dictGet_eq_some {α : Type} :
    ∀ {d : List (String × α)} {k : String} {v : α}, dictGet d k = some v →
      (k, v) ∈ d := by
  intro d
  induction d with
  | nil => intro k v h; simp [dictGet] at h
  | cons hd tl ih =>
    intro k v h
    obtain ⟨k', v'⟩ := hd
    by_cases hk : k' = k
    · subst hk
      have h' : v' = v := by simpa [dictGet] using h
      subst h'
      exact List.mem_cons_self _ _
    · simp only [dictGet, if_neg hk] at h
      exact List.mem_cons_of_mem _ (ih h)

theorem mem_dictInsert {α : Type} :
    ∀ {d : List (String × α)} {k : String} {v : α} {p : String × α},
      p ∈ dictInsert d k v → p ∈ d ∨ p = (k, v) := by
  intro d
  induction d with
  | nil => intro k v p h; simp [dictInsert] at h; exact Or.inr h
  | cons hd tl ih =>
    intro k v p h
    obtain ⟨k', v'⟩ := hd
    by_cases hk : k' = k
    · simp only [dictInsert, if_pos hk, List.mem_cons] at h
      rcases h with h | h
      · exact Or.inr h
      · exact Or.inl (List.mem_cons_of_mem _ h)
    · simp only [dictInsert, if_neg hk, List.mem_cons] at h
      rcases h with h | h
      · exact Or.inl (h ▸ List.mem_cons_self _ _)
      · rcases ih h with h' | h'
        · exact Or.inl (List.mem_cons_of_mem _ h')
        · exact Or.inr h'

theorem foldl_dictInsert_values {α β : Type} (P : α → Prop)
    (key : β → String) (val : β → α) :
    ∀ (l : List β) (acc : List (String × α)), (∀ b ∈ l, P (val b)) →
      (∀ p ∈ acc, P p.2) →
      ∀ p ∈ l.foldl (fun d b => dictInsert d (key b) (val b)) acc, P p.2 := by
  intro l
  induction l with
  | nil => intro acc _ hacc p hp; exact hacc p hp
  | cons b l ih =>
    intro acc hl hacc p hp
    refine ih _ (fun b' hb' => hl b' (by simp [hb'])) ?_ p hp
    intro q hq
    rcases mem_dictInsert hq with h | h
    · exact hacc q h
    · rw [h]
      exact hl b (by simp)

theorem nodup_values_buildMonthlyCosts {costData : List RawMonth}
    {p : String × List (String × ℚ)} (h : p ∈ buildMonthlyCosts costData) :
    (dictKeys p.2).Nodup := by
  unfold buildMonthlyCosts at h
  exact foldl_dictInsert_values (fun v => (dictKeys v).Nodup) _ _
    costData [] (fun md _ => nodup_dictKeys_buildServiceMap md.groups)
    (by simp) p h

theorem dictInsert_eq_append {α : Type} :
    ∀ {d : List (String × α)} {k : String}, k ∉ dictKeys d → ∀ (v : α),
      dictInsert d k v = d ++ [(k, v)] := by
  intro d
  induction d with
  | nil => intro k _ v; rfl
  | cons hd tl ih =>
    intro k hk v
    obtain ⟨k', v'⟩ := hd
    have hne : k' ≠ k := by
      intro h
      exact hk (by simp [dictKeys, h])
    have htl : k ∉ dictKeys tl := by
      intro h
      exact hk (by simp [dictKeys] at h ⊢; exact Or.inr h)
    simp [dictInsert, hne, ih htl]

theorem foldl_dictInsert_eq_append {α β : Type} (key : β → String) (val : β → α) :
    ∀ (l : List β) (acc : List (String × α)), (l.map key).Nodup →
      (∀ b ∈ l, key b ∉ dictKeys acc) →
      l.foldl (fun d b => dictInsert d (key b) (val b)) acc
        = acc ++ l.map (fun b => (key b, val b)) := by
  intro l
  induction l with
  | nil => intro acc _ _; simp
  | cons b l ih =>
    intro acc hnd hdisj
    have hins : dictInsert acc (key b) (val b) = acc ++ [(key b, val b)] :=
      dictInsert_eq_append (hdisj b (by simp)) _
    have hnd' : (l.map key).Nodup := (List.nodup_cons.mp (by simpa using hnd)).2
    have hhd : key b ∉ l.map key := (List.nodup_cons.mp (by simpa using hnd)).1
    have hdisj' : ∀ b' ∈ l, key b' ∉ dictKeys (acc ++ [(key b, val b)]) := by
      intro b' hb' hmem
      have hkeys : dictKeys (acc ++ [(key b, val b)]) = dictKeys acc ++ [key b] := by
        simp [dictKeys]
      rw [hkeys] at hmem
      rcases List.mem_append.mp hmem with h | h
      · exact hdisj b' (by simp [hb']) h
      · simp only [List.mem_singleton] at h
        exact hhd (h ▸ List.mem_map_of_mem key hb')
    calc (b :: l).foldl (fun d b => dictInsert d (key b) (val b)) acc
        = l.foldl (fun d b => dictInsert d (key b) (val b)) (acc ++ [(key b, val b)]) := by
          rw [List.foldl_cons, hins]
      _ = (acc ++ [(key b, val b)]) ++ l.map (fun b => (key b, val b)) :=
          ih _ hnd' hdisj'
      _ = acc ++ (b :: l).map (fun b => (key b, val b)) := by simp

/-! ### Max / sum lemmas for the chart -/

theorem le_foldl_max : ∀ (l : List ℚ) (a : ℚ), a ≤ l.foldl max a := by
  intro l
  induction l with
  | nil => intro a; exact le_refl _
  | cons b l ih =>
    intro a
    exact le_trans (le_max_left a b) (ih (max a b))

theorem foldl_max_of_mem : ∀ {l : List ℚ} {x : ℚ} (a : ℚ), x ∈ l → x ≤ l.foldl max a := by
  intro l
  induction l with
  | nil => intro x a h; exact absurd h (List.not_mem_nil _)
  | cons b l ih =>
    intro x a h
    rcases List.mem_cons.mp h with rfl | h
    · exact le_trans (le_max_right a x) (le_foldl_max l (max a x))
    · exact ih (max a b) h

theorem foldl_add_nonneg :
    ∀ (m : List (String × ℚ)) (a : ℚ), 0 ≤ a → (∀ p ∈ m, 0 ≤ p.2) →
      0 ≤ m.foldl (fun a p => a + p.2) a := by
  intro m
  induction m with
  | nil => intro a ha _; exact ha
  | cons p m ih =>
    intro a ha hm
    exact ih (a + p.2) (add_nonneg ha (hm p (by simp)))
      (fun q hq => hm q (by simp [hq]))

theorem sumValues_nonneg {m : List (String × ℚ)} (h : ∀ p ∈ m, 0 ≤ p.2) :
    0 ≤ sumValues m :=
  foldl_add_nonneg m 0 le_rfl h

/-! ### Inversion of a successful analyzer run -/

theorem processCostData_ok {costData : List RawMonth}
    {comp : List (String × CompEntry)} {mc : List (String × List (String × ℚ))}
    {cur prev : String}
    (h : processCostData costData = .ok (comp, mc, cur, prev)) :
    mc = buildMonthlyCosts costData ∧
    ∃ curMap prevMap,
      dictGet mc cur = some curMap ∧
      dictGet mc prev = some prevMap ∧
      comp = ((List.insertionSort byAmountDesc curMap).take 10).map
        (fun p => (p.1, mkEntry prevMap p)) := by
  simp only [processCostData] at h
  rcases hrev : (List.insertionSort strLe (dictKeys (buildMonthlyCosts costData))).reverse
    with _ | ⟨c, _ | ⟨p, rest⟩⟩
  · rw [hrev] at h
    exact absurd h (by simp)
  · rw [hrev] at h
    exact absurd h (by simp)
  · rw [hrev] at h
    dsimp only at h
    rcases hc : dictGet (buildMonthlyCosts costData) c with _ | cm
    · rw [hc] at h
      rcases hp : dictGet (buildMonthlyCosts costData) p with _ | pm
      · rw [hp] at h
        exact absurd h (by simp)
      · rw [hp] at h
        exact absurd h (by simp)
    · rw [hc] at h
      rcases hp : dictGet (buildMonthlyCosts costData) p with _ | pm
      · rw [hp] at h
        exact absurd h (by simp)
      · rw [hp] at h
        simp only [Except.ok.injEq, Prod.mk.injEq] at h
        obtain ⟨hcomp, hmc, hcur, hprev⟩ := h
        subst hmc hcur hprev
        refine ⟨rfl, cm, pm, hc, hp, ?_⟩
        have hmemc : (c, cm) ∈ buildMonthlyCosts costData := mem_of_dictGet_eq_some hc
        have hnodc : (cm.map Prod.fst).Nodup := nodup_values_buildMonthlyCosts hmemc
        have hperm : List.Perm (List.insertionSort byAmountDesc cm) cm :=
          List.perm_insertionSort byAmountDesc cm
        have hnods : ((List.insertionSort byAmountDesc cm).map Prod.fst).Nodup :=
          ((hperm.map Prod.fst).nodup_iff).mpr hnodc
        have hnodt : (((List.insertionSort byAmountDesc cm).take 10).map Prod.fst).Nodup := by
          exact List.Nodup.sublist (List.Sublist.map Prod.fst (List.take_sublist 10 _)) hnods
        have happ := foldl_dictInsert_eq_append Prod.fst (mkEntry pm)
          ((List.insertionSort byAmountDesc cm).take 10) [] hnodt
          (by simp [dictKeys])
        rw [← hcomp, happ, List.nil_append]

theorem strLe_refl (a : String) : strLe a a :=
  (charListLe_total a.data a.data).elim id id

theorem processCostData_eq_ok (costData : List RawMonth) {c p : String}
    {rest : List String}
    (hrev : (List.insertionSort strLe (dictKeys (buildMonthlyCosts costData))).reverse
      = c :: p :: rest) :
    ∃ comp, processCostData costData = .ok (comp, buildMonthlyCosts costData, c, p) := by
  have hc : c ∈ dictKeys (buildMonthlyCosts costData) := by
    have hm : c ∈ (List.insertionSort strLe
        (dictKeys (buildMonthlyCosts costData))).reverse := by
      rw [hrev]; simp
    rw [List.mem_reverse, List.mem_insertionSort] at hm
    exact hm
  have hp : p ∈ dictKeys (buildMonthlyCosts costData) := by
    have hm : p ∈ (List.insertionSort strLe
        (dictKeys (buildMonthlyCosts costData))).reverse := by
      rw [hrev]; simp
    rw [List.mem_reverse, List.mem_insertionSort] at hm
    exact hm
  obtain ⟨cm, hcm⟩ := dictGet_eq_some_of_mem hc
  obtain ⟨pm, hpm⟩ := dictGet_eq_some_of_mem hp
  refine ⟨(List.take 10 (List.insertionSort byAmountDesc cm)).foldl
    (fun d p => dictInsert d p.1 (mkEntry pm p)) [], ?_⟩
  simp only [processCostData]
  rw [hrev]
  dsimp only
  rw [hcm, hpm]

/-- C1: for every raw grouped-by-service monthly result set with at least
two (distinct) months, the analyzer builds the month → service → amount
table and selects as `current_month` and `previous_month` exactly the two
lexicographically greatest month keys present: `current_month` is the
greatest and `previous_month` the second greatest. -/
theorem C1_analyzer_selects_two_greatest_months (costData : List RawMonth)
    (h2 : 2 ≤ (dictKeys (buildMonthlyCosts costData)).length) :
    ∃ comp cur prev,
      processCostData costData = .ok (comp, buildMonthlyCosts costData, cur, prev) ∧
      cur ∈ dictKeys (buildMonthlyCosts costData) ∧
      prev ∈ dictKeys (buildMonthlyCosts costData) ∧
      prev ≠ cur ∧
      (∀ k ∈ dictKeys (buildMonthlyCosts costData), strLe k cur) ∧
      (∀ k ∈ dictKeys (buildMonthlyCosts costData), k ≠ cur → strLe k prev) := by
  have hperm : List.Perm
      (List.insertionSort strLe (dictKeys (buildMonthlyCosts costData)))
      (dictKeys (buildMonthlyCosts costData)) :=
    List.perm_insertionSort strLe _
  have hsort : List.Sorted strLe
      (List.insertionSort strLe (dictKeys (buildMonthlyCosts costData))) :=
    List.sorted_insertionSort strLe _
  have hnod : (dictKeys (buildMonthlyCosts costData)).Nodup :=
    nodup_dictKeys_buildMonthlyCosts costData
  have hlen : 2 ≤ (List.insertionSort strLe
      (dictKeys (buildMonthlyCosts costData))).length := by
    rw [hperm.length_eq]; exact h2
  rcases hrev : (List.insertionSort strLe
      (dictKeys (buildMonthlyCosts costData))).reverse with _ | ⟨c, _ | ⟨p, rest⟩⟩
  · exfalso
    have hl : (List.insertionSort strLe
        (dictKeys (buildMonthlyCosts costData))).length = 0 := by
      rw [← List.length_reverse, hrev]
      rfl
    omega
  · exfalso
    have hl : (List.insertionSort strLe
        (dictKeys (buildMonthlyCosts costData))).length = 1 := by
      rw [← List.length_reverse, hrev]
      rfl
    omega
  · obtain ⟨comp, hok⟩ := processCostData_eq_ok costData hrev
    have hsplit : List.insertionSort strLe (dictKeys (buildMonthlyCosts costData))
        = (rest.reverse ++ [p]) ++ [c] := by
      have hrr := congrArg List.reverse hrev
      rw [List.reverse_reverse] at hrr
      rw [hrr]
      simp
    have hmem : ∀ k, k ∈ dictKeys (buildMonthlyCosts costData) ↔
        k ∈ (rest.reverse ++ [p]) ++ [c] := by
      intro k
      rw [← hsplit, ← hperm.mem_iff]
    have hpw := hsort
    rw [hsplit] at hpw
    have hpair := List.pairwise_append.mp hpw
    have hpair2 := List.pairwise_append.mp hpair.1
    have hcmem : c ∈ dictKeys (buildMonthlyCosts costData) :=
      (hmem c).mpr (by simp)
    have hpmem : p ∈ dictKeys (buildMonthlyCosts costData) :=
      (hmem p).mpr (by simp)
    have hnods : ((rest.reverse ++ [p]) ++ [c]).Nodup := by
      rw [← hsplit]
      exact (hperm.nodup_iff).mpr hnod
    have hpc : p ≠ c := by
      intro h
      subst h
      have : p ∈ (rest.reverse ++ [p] : List String) := by simp
      have hdisj := (List.nodup_append.mp hnods).2.2
      exact hdisj this (by simp)
    refine ⟨comp, c, p, hok, hcmem, hpmem, hpc, ?_, ?_⟩
    · intro k hk
      rcases List.mem_append.mp ((hmem k).mp hk) with h | h
      · exact hpair.2.2 k h c (by simp)
      · have : k = c := by simpa using h
        subst this
        exact strLe_refl k
    · intro k hk hkc
      rcases List.mem_append.mp ((hmem k).mp hk) with h | h
      · rcases List.mem_append.mp h with h' | h'
        · exact hpair2.2.2 k h' p (by simp)
        · have : k = p := by simpa using h'
          subst this
          exact strLe_refl k
      · exact absurd (by simpa using h) hkc

/-! ### Concrete sample data (the scenario of §8 of the specification) -/

def sampleRaw : List RawMonth :=
  [⟨"2024-05-01", [("EC2", 100), ("S3", 50)]⟩,
   ⟨"2024-06-01", [("EC2", 120), ("S3", 40)]⟩]

def sampleComp : List (String × CompEntry) :=
  [("EC2", ⟨120, 100, 20, .finite 20⟩), ("S3", ⟨40, 50, -10, .finite (-20)⟩)]

def sampleMC : List (String × List (String × ℚ)) :=
  [("2024-05", [("EC2", 100), ("S3", 50)]), ("2024-06", [("EC2", 120), ("S3", 40)])]

theorem sample_eval :
    processCostData sampleRaw = .ok (sampleComp, sampleMC, "2024-06", "2024-05") := by
  norm_num +decide [sampleRaw, sampleComp, sampleMC, processCostData,
    buildMonthlyCosts, buildServiceMap, monthKey, dictInsert, dictGet, dictKeys,
    mkEntry, byAmountDesc, List.insertionSort, List.orderedInsert, List.foldl,
    List.take]

/-- Witness for C1 at a concrete two-month data set. -/
theorem C1_witness :
    2 ≤ (dictKeys (buildMonthlyCosts sampleRaw)).length ∧
    (∃ comp cur prev,
      processCostData sampleRaw = .ok (comp, buildMonthlyCosts sampleRaw, cur, prev) ∧
      cur ∈ dictKeys (buildMonthlyCosts sampleRaw) ∧
      prev ∈ dictKeys (buildMonthlyCosts sampleRaw) ∧
      prev ≠ cur ∧
      (∀ k ∈ dictKeys (buildMonthlyCosts sampleRaw), strLe k cur) ∧
      (∀ k ∈ dictKeys (buildMonthlyCosts sampleRaw), k ≠ cur → strLe k prev)) :=
  ⟨by decide, C1_analyzer_selects_two_greatest_months sampleRaw (by decide)⟩

/-- C2: for every input with at least two months of data, the comparison
list has length `min 10 n` where `n` is the number of distinct services
of the current month — hence always at most ten entries, exactly ten when
the current month has ten or more services, fewer (no padding) otherwise —
and its entries are ordered by current-month amount descending. -/
theorem C2_comparison_bounded_sorted {costData : List RawMonth}
    {comp : List (String × CompEntry)} {mc : List (String × List (String × ℚ))}
    {cur prev : String} {curMap : List (String × ℚ)}
    (h : processCostData costData = .ok (comp, mc, cur, prev))
    (hc : dictGet mc cur = some curMap) :
    comp.length ≤ 10 ∧
    comp.length = min 10 curMap.length ∧
    comp.Pairwise (fun a b => b.2.current ≤ a.2.current) := by
  obtain ⟨hmc, cm, pm, hcm, hpm, hcomp⟩ := processCostData_ok h
  have hcmeq : cm = curMap := by
    rw [hcm] at hc
    exact Option.some.inj hc
  subst hcmeq
  have hlen : comp.length = min 10 cm.length := by
    rw [hcomp, List.length_map, List.length_take,
      (List.perm_insertionSort byAmountDesc cm).length_eq]
  refine ⟨by omega, hlen, ?_⟩
  have hsor : List.Pairwise byAmountDesc (List.insertionSort byAmountDesc cm) :=
    List.sorted_insertionSort byAmountDesc cm
  have htake : List.Pairwise byAmountDesc
      ((List.insertionSort byAmountDesc cm).take 10) :=
    List.Pairwise.sublist (List.take_sublist 10 _) hsor
  rw [hcomp, List.pairwise_map]
  exact htake.imp (fun h => h)

/-- Witness for C2 at the same concrete data set. -/
theorem C2_witness :
    sampleComp.length ≤ 10 ∧
    sampleComp.length = min 10 ([("EC2", (120 : ℚ)), ("S3", 40)]).length ∧
    sampleComp.Pairwise (fun a b => b.2.current ≤ a.2.current) :=
  C2_comparison_bounded_sorted sample_eval
    (by norm_num +decide [sampleMC, dictGet])

/-- C3: every service of the top-10 set that is absent from the previous
month's service map gets previous amount exactly 0, change equal to its
current amount, and percent change positive infinity whenever its current
amount is positive. -/
theorem C3_absent_previous_service {costData : List RawMonth}
    {comp : List (String × CompEntry)} {mc : List (String × List (String × ℚ))}
    {cur prev : String} (prevMap : List (String × ℚ)) (s : String) (e : CompEntry)
    (h : processCostData costData = .ok (comp, mc, cur, prev))
    (hp : dictGet mc prev = some prevMap)
    (hmem : (s, e) ∈ comp)
    (habs : dictGet prevMap s = none) :
    e.previous = 0 ∧ e.change = e.current ∧
      (0 < e.current → e.percent_change = PercentChange.posInf) := by
  obtain ⟨hmc, cm, pm, hcm, hpm, hcomp⟩ := processCostData_ok h
  have hpmeq : pm = prevMap := by
    rw [hpm] at hp
    exact Option.some.inj hp
  subst hpmeq
  rw [hcomp] at hmem
  obtain ⟨p, hpmem, heq⟩ := List.mem_map.mp hmem
  have hs : p.1 = s := congrArg Prod.fst heq
  have he : mkEntry pm p = e := congrArg Prod.snd heq
  subst hs
  rw [← he]
  simp [mkEntry, habs]

def sampleRaw2 : List RawMonth :=
  [⟨"2024-05-01", [("EC2", 100)]⟩,
   ⟨"2024-06-01", [("EC2", 120), ("Lambda", 30)]⟩]

def sampleComp2 : List (String × CompEntry) :=
  [("EC2", ⟨120, 100, 20, .finite 20⟩), ("Lambda", ⟨30, 0, 30, .posInf⟩)]

def sampleMC2 : List (String × List (String × ℚ)) :=
  [("2024-05", [("EC2", 100)]), ("2024-06", [("EC2", 120), ("Lambda", 30)])]

theorem sample2_eval :
    processCostData sampleRaw2 = .ok (sampleComp2, sampleMC2, "2024-06", "2024-05") := by
  norm_num +decide [sampleRaw2, sampleComp2, sampleMC2, processCostData,
    buildMonthlyCosts, buildServiceMap, monthKey, dictInsert, dictGet, dictKeys,
    mkEntry, byAmountDesc, List.insertionSort, List.orderedInsert, List.foldl,
    List.take]

/-- Witness for C3: the `Lambda` service is new in the current month. -/
theorem C3_witness :
    (⟨30, 0, 30, .posInf⟩ : CompEntry).previous = 0 ∧
    (⟨30, 0, 30, .posInf⟩ : CompEntry).change = (⟨30, 0, 30, .posInf⟩ : CompEntry).current ∧
    (0 < (⟨30, 0, 30, .posInf⟩ : CompEntry).current →
      (⟨30, 0, 30, .posInf⟩ : CompEntry).percent_change = PercentChange.posInf) :=
  C3_absent_previous_service [("EC2", (100 : ℚ))] "Lambda" ⟨30, 0, 30, .posInf⟩
    sample2_eval
    (by norm_num +decide [sampleMC2, dictGet])
    (by simp [sampleComp2])
    (by decide)

/-! ### Entry-point claims -/

/-- C4: when the billing query raises a provider error (`get_cost_data`
returns `None`), the entry point returns statusCode 500 with body
`json.dumps("Error fetching cost data")`, and neither the report builder
nor the delivery client is invoked. -/
theorem C4_billing_error_returns_500 (env : Env) (h : env.costData = none) :
    lambda_handler env =
      (⟨500, json_dumps_str "Error fetching cost data"⟩, ⟨false, false, false⟩) := by
  simp [lambda_handler, analyze_costs, h]

def envBillingError : Env := ⟨none, some "https://hooks.example/T000", some (200, "ok")⟩

/-- Witness for C4: a run whose billing query failed. -/
theorem C4_witness :
    lambda_handler envBillingError =
      (⟨500, json_dumps_str "Error fetching cost data"⟩, ⟨false, false, false⟩) :=
  C4_billing_error_returns_500 envBillingError rfl

/-- C5: the entry point is total on its external contract: every return
value has statusCode 200 or 500 and a JSON-encoded string body, and every
modelled exception of the pipeline (from the analyzer or from the report
builder) is caught at the top level and mapped to statusCode 500 with the
exception's message embedded in the body. -/
theorem C5_handler_total_contract (env : Env) :
    ((lambda_handler env).1.statusCode = 200 ∨ (lambda_handler env).1.statusCode = 500) ∧
    (∃ msg, (lambda_handler env).1.body = json_dumps_str msg) ∧
    (∀ msg, analyze_costs env.costData = .error msg →
      (lambda_handler env).1 = ⟨500, json_dumps_str ("Unexpected error: " ++ msg)⟩) ∧
    (∀ comp mc cur prev msg,
      analyze_costs env.costData = .ok (some (comp, mc, cur, prev)) → comp ≠ [] →
      create_report comp mc cur prev = .error msg →
      (lambda_handler env).1 = ⟨500, json_dumps_str ("Unexpected error: " ++ msg)⟩) := by
  rcases hA : analyze_costs env.costData with msg | o
  · refine ⟨?_, ?_, ?_, ?_⟩ <;> simp only [lambda_handler, hA]
    · simp
    · exact ⟨_, rfl⟩
    · intro msg' hmsg
      rw [Except.error.inj hmsg]
    · intro comp mc cur prev msg' hA' _ _
      exact absurd hA' (by simp)
  · rcases o with _ | ⟨comp, mc, cur, prev⟩
    · refine ⟨?_, ?_, ?_, ?_⟩ <;> simp only [lambda_handler, hA]
      · simp
      · exact ⟨_, rfl⟩
      · intro msg' hmsg
        exact absurd hmsg (by simp)
      · intro comp mc cur prev msg' hA' _ _
        exact absurd hA' (by simp)
    · by_cases hE : comp.isEmpty
      · refine ⟨?_, ?_, ?_, ?_⟩ <;> simp only [lambda_handler, hA, if_pos hE]
        · simp
        · exact ⟨_, rfl⟩
        · intro msg' hmsg
          exact absurd hmsg (by simp)
        · intro comp' mc' cur' prev' msg' hA' hne' _
          have h1 : comp' = comp := by
            have := Except.ok.inj hA'
            have := Option.some.inj this
            exact (congrArg (fun t => t.1) this).symm
          rw [h1] at hne'
          exact absurd (List.isEmpty_iff.mp hE) hne'
      · rcases hR : create_report comp mc cur prev with msg | report
        · refine ⟨?_, ?_, ?_, ?_⟩ <;> simp only [lambda_handler, hA, if_neg hE, hR]
          · simp
          · exact ⟨_, rfl⟩
          · intro msg' hmsg
            exact absurd hmsg (by simp)
          · intro comp' mc' cur' prev' msg' hA' hne' hR'
            have ht : comp' = comp ∧ mc' = mc ∧ cur' = cur ∧ prev' = prev := by
              have := Option.some.inj (Except.ok.inj hA')
              exact ⟨(congrArg (fun t => t.1) this).symm,
                (congrArg (fun t => t.2.1) this).symm,
                (congrArg (fun t => t.2.2.1) this).symm,
                (congrArg (fun t => t.2.2.2) this).symm⟩
            obtain ⟨h1, h2, h3, h4⟩ := ht
            subst h1 h2 h3 h4
            rw [hR] at hR'
            rw [Except.error.inj hR']
        · rcases hS : (send_to_slack env report).1 with _ | body
          · refine ⟨?_, ?_, ?_, ?_⟩ <;> simp only [lambda_handler, hA, if_neg hE, hR, hS]
            · simp
            · exact ⟨_, rfl⟩
            · intro msg' hmsg
              exact absurd hmsg (by simp)
            · intro comp' mc' cur' prev' msg' hA' hne' hR'
              have ht : comp' = comp ∧ mc' = mc ∧ cur' = cur ∧ prev' = prev := by
                have := Option.some.inj (Except.ok.inj hA')
                exact ⟨(congrArg (fun t => t.1) this).symm,
                  (congrArg (fun t => t.2.1) this).symm,
                  (congrArg (fun t => t.2.2.1) this).symm,
                  (congrArg (fun t => t.2.2.2) this).symm⟩
              obtain ⟨h1, h2, h3, h4⟩ := ht
              subst h1 h2 h3 h4
              rw [hR] at hR'
              exact absurd hR' (by simp)
          · by_cases hB : body = ""
            · refine ⟨?_, ?_, ?_, ?_⟩ <;>
                simp only [lambda_handler, hA, if_neg hE, hR, hS, if_pos hB]
              · simp
              · exact ⟨_, rfl⟩
              · intro msg' hmsg
                exact absurd hmsg (by simp)
              · intro comp' mc' cur' prev' msg' hA' hne' hR'
                have ht : comp' = comp ∧ mc' = mc ∧ cur' = cur ∧ prev' = prev := by
                  have := Option.some.inj (Except.ok.inj hA')
                  exact ⟨(congrArg (fun t => t.1) this).symm,
                    (congrArg (fun t => t.2.1) this).symm,
                    (congrArg (fun t => t.2.2.1) this).symm,
                    (congrArg (fun t => t.2.2.2) this).symm⟩
                obtain ⟨h1, h2, h3, h4⟩ := ht
                subst h1 h2 h3 h4
                rw [hR] at hR'
                exact absurd hR' (by simp)
            · refine ⟨?_, ?_, ?_, ?_⟩ <;>
                simp only [lambda_handler, hA, if_neg hE, hR, hS, if_neg hB]
              · simp
              · exact ⟨_, rfl⟩
              · intro msg' hmsg
                exact absurd hmsg (by simp)
              · intro comp' mc' cur' prev' msg' hA' hne' hR'
                have ht : comp' = comp ∧ mc' = mc ∧ cur' = cur ∧ prev' = prev := by
                  have := Option.some.inj (Except.ok.inj hA')
                  exact ⟨(congrArg (fun t => t.1) this).symm,
                    (congrArg (fun t => t.2.1) this).symm,
                    (congrArg (fun t => t.2.2.1) this).symm,
                    (congrArg (fun t => t.2.2.2) this).symm⟩
                obtain ⟨h1, h2, h3, h4⟩ := ht
                subst h1 h2 h3 h4
                rw [hR] at hR'
                exact absurd hR' (by simp)

/-- Witness for C5 at a concrete environment. -/
theorem C5_witness :
    ((lambda_handler envBillingError).1.statusCode = 200 ∨
      (lambda_handler envBillingError).1.statusCode = 500) ∧
    (∃ msg, (lambda_handler envBillingError).1.body = json_dumps_str msg) ∧
    (∀ msg, analyze_costs envBillingError.costData = .error msg →
      (lambda_handler envBillingError).1 =
        ⟨500, json_dumps_str ("Unexpected error: " ++ msg)⟩) ∧
    (∀ comp mc cur prev msg,
      analyze_costs envBillingError.costData = .ok (some (comp, mc, cur, prev)) →
      comp ≠ [] →
      create_report comp mc cur prev = .error msg →
      (lambda_handler envBillingError).1 =
        ⟨500, json_dumps_str ("Unexpected error: " ++ msg)⟩) :=
  C5_handler_total_contract envBillingError

/-- C8: with `SLACK_WEBHOOK_URL` missing or empty the delivery client
returns the `None` failure sentinel and no HTTP request is constructed or
sent. -/
theorem C8_missing_url_no_network (env : Env) (report : List Block)
    (h : env.slackUrl = none ∨ env.slackUrl = some "") :
    send_to_slack env report = (none, false) := by
  rcases h with h | h <;> simp [send_to_slack, h]

def envNoUrl : Env := ⟨some sampleRaw, none, some (200, "ok")⟩

/-- Witness for C8: a run with the environment variable unset. -/
theorem C8_witness : send_to_slack envNoUrl [] = (none, false) :=
  C8_missing_url_no_network envNoUrl [] (Or.inl rfl)

/-- C9: a successful billing query with empty results — an empty
per-month list, or an empty comparison map because the current month has
no services — produces exactly the same external outcome as a provider
failure: statusCode 500 with body `json.dumps("Error fetching cost data")`,
because both guards test emptiness rather than the failure sentinel. -/
theorem C9_empty_data_indistinguishable (env : Env) :
    (env.costData = none →
      lambda_handler env =
        (⟨500, json_dumps_str "Error fetching cost data"⟩, ⟨false, false, false⟩)) ∧
    (env.costData = some [] →
      lambda_handler env =
        (⟨500, json_dumps_str "Error fetching cost data"⟩, ⟨false, false, false⟩)) ∧
    (∀ comp mc cur prev,
      analyze_costs env.costData = .ok (some (comp, mc, cur, prev)) → comp = [] →
      lambda_handler env =
        (⟨500, json_dumps_str "Error fetching cost data"⟩, ⟨false, false, false⟩)) := by
  refine ⟨?_, ?_, ?_⟩
  · intro h
    simp [lambda_handler, analyze_costs, h]
  · intro h
    simp [lambda_handler, analyze_costs, h]
  · intro comp mc cur prev hA hempty
    subst hempty
    simp [lambda_handler, hA]

def envEmptyList : Env := ⟨some [], some "https://hooks.example/T000", some (200, "ok")⟩

/-- Witness for C9: a successful query that returned no months. -/
theorem C9_witness :
    lambda_handler envEmptyList =
      (⟨500, json_dumps_str "Error fetching cost data"⟩, ⟨false, false, false⟩) :=
  (C9_empty_data_indistinguishable envEmptyList).2.1 rfl

/-- C10: an HTTP 200 webhook response with an empty body makes the
delivery client return that empty body, and the entry point then reports
failure: overall success requires a non-empty response body because the
handler tests the delivery result for truthiness. -/
theorem C10_empty_response_body_fails (env : Env)
    (comp : List (String × CompEntry)) (mc : List (String × List (String × ℚ)))
    (cur prev : String) (report : List Block) (url : String)
    (hA : analyze_costs env.costData = .ok (some (comp, mc, cur, prev)))
    (hne : comp ≠ [])
    (hR : create_report comp mc cur prev = .ok report)
    (hurl : env.slackUrl = some url) (hurlne : url ≠ "")
    (hhttp : env.slackHttp = some (200, "")) :
    send_to_slack env report = (some "", true) ∧
    lambda_handler env =
      (⟨500, json_dumps_str "Error sending report to Slack"⟩, ⟨true, true, true⟩) := by
  have hsend : send_to_slack env report = (some "", true) := by
    simp [send_to_slack, hurl, hurlne, hhttp]
  have hE : comp.isEmpty = false := by
    rcases comp with _ | _
    · exact absurd rfl hne
    · rfl
  refine ⟨hsend, ?_⟩
  simp [lambda_handler, hA, hE, hR, hsend]

/-! ### Chart claims -/

/-- C6: for every monthly cost table (amounts are non-negative per the
Data Model) whose maximum monthly total is positive, each month's rendered
bar length equals `⌊(total / max) * 20⌋`, and bar length is monotone in
the total. -/
theorem C6_bar_length_floor_monotonic (mc : List (String × List (String × ℚ)))
    (hnn : ∀ p ∈ mc, ∀ q ∈ p.2, 0 ≤ q.2)
    (hpos : 0 < maxTotal mc) :
    (∀ t ∈ monthTotals mc,
      ((barOf t (maxTotal mc)).length : ℤ) = ⌊t / maxTotal mc * 20⌋) ∧
    (∀ a ∈ monthTotals mc, ∀ b ∈ monthTotals mc, a < b →
      (barOf a (maxTotal mc)).length ≤ (barOf b (maxTotal mc)).length) := by
  have htot : ∀ t ∈ monthTotals mc, 0 ≤ t := by
    intro t ht
    simp only [monthTotals, List.mem_map] at ht
    obtain ⟨m, _, rfl⟩ := ht
    rcases hg : dictGet mc m with _ | sm
    · exact le_refl 0
    · exact sumValues_nonneg (fun q hq => hnn (m, sm) (mem_of_dictGet_eq_some hg) q hq)
  have hbar : ∀ t : ℚ, 0 ≤ t →
      ((barOf t (maxTotal mc)).length : ℤ) = ⌊t / maxTotal mc * 20⌋ := by
    intro t ht
    have hratio : 0 ≤ t / maxTotal mc * 20 :=
      mul_nonneg (div_nonneg ht hpos.le) (by norm_num)
    have hfloor : 0 ≤ ⌊t / maxTotal mc * 20⌋ := Int.floor_nonneg.mpr hratio
    have h1 : bar_length t (maxTotal mc) = ⌊t / maxTotal mc * 20⌋ := by
      unfold bar_length ratTrunc
      rw [if_neg (not_lt.mpr hratio)]
    have h2 : (barOf t (maxTotal mc)).length = (bar_length t (maxTotal mc)).toNat :=
      List.length_replicate _ _
    rw [h2, h1]
    exact Int.toNat_of_nonneg hfloor
  refine ⟨fun t ht => hbar t (htot t ht), ?_⟩
  intro a ha b hb hab
  have hA := hbar a (htot a ha)
  have hB := hbar b (htot b hb)
  have hle : ⌊a / maxTotal mc * 20⌋ ≤ ⌊b / maxTotal mc * 20⌋ :=
    Int.floor_le_floor
      (mul_le_mul_of_nonneg_right ((div_le_div_iff_of_pos_right hpos).mpr hab.le)
        (by norm_num))
  have hcast : ((barOf a (maxTotal mc)).length : ℤ) ≤
      ((barOf b (maxTotal mc)).length : ℤ) := by
    rw [hA, hB]
    exact hle
  exact_mod_cast hcast

/-- Witness for C6 at the sample monthly table. -/
theorem C6_witness :
    (∀ t ∈ monthTotals sampleMC,
      ((barOf t (maxTotal sampleMC)).length : ℤ) = ⌊t / maxTotal sampleMC * 20⌋) ∧
    (∀ a ∈ monthTotals sampleMC, ∀ b ∈ monthTotals sampleMC, a < b →
      (barOf a (maxTotal sampleMC)).length ≤ (barOf b (maxTotal sampleMC)).length) :=
  C6_bar_length_floor_monotonic sampleMC (by decide)
    (by norm_num +decide [maxTotal, monthTotals, sortedMonths, dictKeys, sampleMC,
      dictGet, sumValues, List.insertionSort, List.orderedInsert, List.foldl,
      max_def])

/-! ### Report-builder claims -/

theorem blockOfJson_blockToJson (b : Block) : blockOfJson (blockToJson b) = some b := by
  cases b <;> rfl

theorem parseBlocks_roundtrip (l : List Block) :
    parseBlocks (l.map blockToJson) = some l := by
  induction l with
  | nil => rfl
  | cons b l ih => simp [parseBlocks, blockOfJson_blockToJson, ih]

/-- C7: the report builder's output consists of `len(comparison) + 5`
blocks — header, intro section, one section per comparison entry, divider,
overview header, chart section, in that order — and serializing every
block to its JSON wire form and parsing back returns the same list (in
particular the block count survives the round trip). -/
theorem C7_report_count_roundtrip (comp : List (String × CompEntry))
    (mc : List (String × List (String × ℚ))) (cur prev : String)
    (report : List Block)
    (h : create_report comp mc cur prev = .ok report) :
    report.length = comp.length + 5 ∧
    (∃ chart, create_ascii_chart mc = .ok chart ∧
      report =
        [Block.header ("AWS Cost Analysis: " ++ cur ++ " vs " ++ prev),
         Block.sectionBlock "*Top 10 Most Expensive Services Comparison:*"]
        ++ comp.map (fun p => Block.sectionBlock (serviceSection p.1 p.2))
        ++ [Block.divider,
            Block.header "6-Month Cost Overview",
            Block.sectionBlock ("```\n" ++ chart ++ "\n```")]) ∧
    parseBlocks (report.map blockToJson) = some report := by
  unfold create_report at h
  rcases hc : create_ascii_chart mc with e | chart
  · rw [hc] at h
    exact absurd h (by simp)
  · rw [hc] at h
    have hrep := (Except.ok.inj h).symm
    subst hrep
    refine ⟨?_, ⟨chart, rfl, rfl⟩, parseBlocks_roundtrip _⟩
    simp only [List.length_append, List.length_cons, List.length_map,
      List.length_nil]
    omega

def sampleReport : List Block :=
  (create_report sampleComp sampleMC "2024-06" "2024-05").toOption.getD []

theorem sampleMC_totals : monthTotals sampleMC = [150, 160] := by
  norm_num +decide [monthTotals, sortedMonths, dictKeys, sampleMC, dictGet,
    sumValues, List.insertionSort, List.orderedInsert, List.foldl]

theorem sampleMC_max : maxTotal sampleMC = 160 := by
  simp only [maxTotal, sampleMC_totals]
  norm_num [List.foldl, max_def]

theorem sampleReport_eval :
    create_report sampleComp sampleMC "2024-06" "2024-05" = .ok sampleReport := by
  have h1 : monthTotals sampleMC ≠ [] := by
    rw [sampleMC_totals]
    simp
  have h2 : maxTotal sampleMC ≠ 0 := by
    rw [sampleMC_max]
    norm_num
  simp [sampleReport, create_report, create_ascii_chart, h1, h2, Except.toOption]

/-- Witness for C7 at a concrete report. -/
theorem C7_witness :
    sampleReport.length = sampleComp.length + 5 ∧
    (∃ chart, create_ascii_chart sampleMC = .ok chart ∧
      sampleReport =
        [Block.header ("AWS Cost Analysis: " ++ "2024-06" ++ " vs " ++ "2024-05"),
         Block.sectionBlock "*Top 10 Most Expensive Services Comparison:*"]
        ++ sampleComp.map (fun p => Block.sectionBlock (serviceSection p.1 p.2))
        ++ [Block.divider,
            Block.header "6-Month Cost Overview",
            Block.sectionBlock ("```\n" ++ chart ++ "\n```")]) ∧
    parseBlocks (sampleReport.map blockToJson) = some sampleReport :=
  C7_report_count_roundtrip sampleComp sampleMC "2024-06" "2024-05" sampleReport
    sampleReport_eval

def envC10 : Env := ⟨some sampleRaw, some "https://hooks.example/T000", some (200, "")⟩

theorem analyze_costs_sample :
    analyze_costs envC10.costData = .ok (some (sampleComp, sampleMC, "2024-06", "2024-05")) := by
  have h0 : analyze_costs (some sampleRaw) = (processCostData sampleRaw).map some := rfl
  rw [show envC10.costData = some sampleRaw from rfl, h0, sample_eval]
  rfl

/-- Witness for C10: a full pipeline run whose webhook answers HTTP 200
with an empty body. -/
theorem C10_witness :
    send_to_slack envC10 sampleReport = (some "", true) ∧
    lambda_handler envC10 =
      (⟨500, json_dumps_str "Error sending report to Slack"⟩, ⟨true, true, true⟩) :=
  C10_empty_response_body_fails envC10 sampleComp sampleMC "2024-06" "2024-05"
    sampleReport "https://hooks.example/T000"
    analyze_costs_sample
    (by simp [sampleComp])
    sampleReport_eval
    rfl
    (by decide)
    rfl

end FinOps
